import Mathlib

/-!
# Verification of the `personal-graph` node/edge store

A shallow embedding, in Lean 4, of the core of the `personal-graph`
repository:

* `src/simple_graph_sqlite/database.py` — the transaction wrapper
  (`atomic`), node/edge persistence (`add_node`, `add_nodes`,
  `upsert_node`, `upsert_nodes`, `remove_node`, `connect_nodes`),
  lookup (`find_node`, `get_connections`) and the traversal loop
  (`traverse`);
* `personal_graph/persistence_layer/vector_store/sqlitevss/sqlitevss.py`
  — the embedding store (`vector_search_node`, `_remove_node`,
  `_remove_edge`, `_set_id`, `_add_embedding`).

Python dictionaries are modelled as association lists of string keys
(insertion ordered, as CPython guarantees); JSON values as the
inductive `Val`; database errors and Python exceptions as `PyExc`;
fallible operations return `Except PyExc`.  The SQL statement files
shipped with the library (`insert-node.sql`, `update-node.sql`,
`delete-edge.sql`, `search-edges.sql`, the traversal template, and the
embedding queries) are not part of the Python sources; their effect on
the store state is modelled from the specification's backend schema
(`nodes(id PRIMARY KEY, body)`, `edges(source, target, properties)`),
and each such definition is marked `Modelled from the spec:`.
-/

namespace PersonalGraph

/-- A Python value as stored in node/edge attribute mappings (the spec's
"scalar or string values").  `vbad` stands for a Python object that
`json.dumps` cannot serialize (e.g. a `set`), which makes serialization
raise `TypeError`. -/
inductive Val where
  | vnull : Val
  | vbool : Bool → Val
  | vint : Int → Val
  | vstr : String → Val
  | vbad : Val
deriving DecidableEq, Repr

/-- A Python `dict` with string keys: an insertion-ordered association
list (CPython dicts preserve insertion order and have unique keys). -/
abbrev Attrs := List (String × Val)

/-- `d.get(k)`: first binding of key `k`. -/
def dget (d : Attrs) (k : String) : Option Val :=
  (d.find? (fun p => p.1 = k)).map Prod.snd

/-- The keys of a dict, in order. -/
def dkeys (d : Attrs) : List String := d.map Prod.fst

/-- `d[k] = v`: if `k` is already bound its value is replaced in place,
otherwise the binding is appended at the end (CPython dict assignment;
keys are unique, so replacing the first binding is replacing the
binding). -/
def dinsert : Attrs → String → Val → Attrs
  | [], k, v => [(k, v)]
  | p :: ps, k, v => if p.1 = k then (k, v) :: ps else p :: dinsert ps k v

/-- `{**old, **new}`: start from `old`, assign every binding of `new`
in order (Python double-splat merge, shallow and last-write-wins). -/
def dmerge (old new : Attrs) : Attrs :=
  new.foldl (fun d p => dinsert d p.1 p.2) old

/-- Whether `json.dumps` succeeds on a value. -/
def serializableVal : Val → Bool
  | .vbad => false
  | _ => true

/-- Whether `json.dumps` succeeds on a whole attribute mapping. -/
def serializableAttrs (d : Attrs) : Bool :=
  d.all (fun p => serializableVal p.2)

/-- Python-dict equality: two attribute mappings are equal as mappings
when they bind the same keys to the same values (key order irrelevant,
as for Python `==` on dicts). -/
def dEquiv (a b : Attrs) : Bool :=
  (dkeys a ++ dkeys b).all (fun k => dget a k == dget b k)

/-- Exceptions that can surface from the store.  `transactionError` is
the wrapper exception the specification posits (`TransactionError`
wrapping an underlying cause); the class does not occur anywhere in the
sources, and the constructor exists here only so that statements about
it can be made. -/
inductive PyExc where
  | jsonUnserializable : PyExc
  | constraintViolation : PyExc
  | typeError : PyExc
  | indexError : PyExc
  | transactionError : PyExc → PyExc
deriving DecidableEq, Repr

/-- Whether an exception is a `TransactionError` wrapping some cause. -/
def isTransactionError : PyExc → Bool
  | .transactionError _ => true
  | _ => false

/-- `json.dumps` on an attribute mapping followed by the backend's JSON
parse on read-back: the identity on serializable mappings, a raised
`TypeError` otherwise. -/
def serialize (d : Attrs) : Except PyExc Attrs :=
  if serializableAttrs d then .ok d else .error .jsonUnserializable

/-- A row of the `edges` table: `edges(source, target, properties)`. -/
structure Edge where
  src : Val
  tgt : Val
  props : Attrs
deriving DecidableEq, Repr

/-- The committed backend state: the `nodes` table (one serialized body
per row, the `id` column being generated from the body) and the `edges`
table. -/
structure DB where
  nodes : List Attrs
  edges : List Edge
deriving DecidableEq, Repr

/-- The empty store. -/
def emptyDB : DB := ⟨[], []⟩

/-- The generated `id` column of a node row: `json_extract(body, id)`,
i.e. the `id` field of the stored body (spec schema
`nodes(id PRIMARY KEY, body)`). -/
def nodeId (b : Attrs) : Option Val := dget b "id"

/-- SQL `id = ?` with NULL semantics: a `None` binding matches no row. -/
def matchesId (b : Attrs) (identifier : Option Val) : Bool :=
  match identifier with
  | none => false
  | some i => nodeId b == some i

/-- Modelled from the spec: `insert-node.sql` against the backend schema
`nodes(id PRIMARY KEY, body)` (the SQL files are not part of the Python
sources).  Inserting a body whose `id` field is missing violates the
NOT NULL generated column; inserting a duplicate `id` violates the
primary key; otherwise the row is appended. -/
def insertNodeRow (db : DB) (body : Attrs) : Except PyExc DB :=
  match nodeId body with
  | none => .error .constraintViolation
  | some i =>
      if db.nodes.any (fun b => nodeId b == some i) then .error .constraintViolation
      else .ok { db with nodes := db.nodes ++ [body] }

/-- Modelled from the spec: `update-node.sql`
(`UPDATE nodes SET body = ? WHERE id = ?`). -/
def updateWhereId (db : DB) (identifier : Option Val) (body : Attrs) : DB :=
  { db with nodes := db.nodes.map (fun b => if matchesId b identifier then body else b) }

/-- `_set_id` (database.py:62-65): inject the identifier into the data
mapping under key `"id"` when an identifier was supplied. -/
def set_id (identifier : Option Val) (data : Attrs) : Attrs :=
  match identifier with
  | none => data
  | some i => dinsert data "id" i

/-- `_insert_node` (database.py:68-71): serialize the data with the id
embedded and execute the insert. -/
def insert_node (db : DB) (identifier : Option Val) (data : Attrs) : Except PyExc DB := do
  let body ← serialize (set_id identifier data)
  insertNodeRow db body

/-- `find_node` (database.py:239-245), applied to a cursor on `db`:
single-clause id-equality body-selecting query; returns the deserialized
body of the first matching row, or the empty mapping when no row
matches. -/
def find_node (db : DB) (identifier : Option Val) : Attrs :=
  (db.nodes.find? (fun b => matchesId b identifier)).getD []

/-- `_upsert_node` (database.py:96-110): look up the current record; if
absent, a regular insert; if present, merge `{**current_data, **data}`
shallowly and update the row, with the identifier re-injected. -/
def upsert_node_op (db : DB) (identifier : Option Val) (data : Attrs) : Except PyExc DB :=
  let current := find_node db identifier
  if current = [] then insert_node db identifier data
  else do
    let body ← serialize (set_id identifier (dmerge current data))
    .ok (updateWhereId db identifier body)

/-- A unit of work: what a closure such as `_add_node(cursor)` does to
the database state, possibly raising. -/
abbrev UnitOfWork (α : Type) := DB → Except PyExc (DB × α)

/-- `add_node` (database.py:74-78): the returned unit of work inserts
one node. -/
def add_node (data : Attrs) (identifier : Option Val) : UnitOfWork Unit :=
  fun db => (insert_node db identifier data).map (fun db' => (db', ()))

/-- The list comprehension of `add_nodes` (database.py:85-90):
`json.dumps(_set_id(id, node))` for each pair, in order; the first
unserializable element raises before any insert has run. -/
def serializeBatch : List (Option Val × Attrs) → Except PyExc (List Attrs)
  | [] => .ok []
  | p :: ps => do
      let b ← serialize (set_id p.1 p.2)
      let bs ← serializeBatch ps
      .ok (b :: bs)

/-- `cursor.executemany` over `insert-node.sql`: one insert per body,
in order; the first failing insert aborts the rest. -/
def execMany : DB → List Attrs → Except PyExc DB
  | db, [] => .ok db
  | db, b :: bs => do
      let db' ← insertNodeRow db b
      execMany db' bs

/-- `add_nodes` (database.py:81-93): serialize every `(id, node)` pair
of `zip(ids, nodes)` first (the list comprehension runs all
`json.dumps` calls before `executemany`), then execute the inserts. -/
def add_nodes (nodes : List Attrs) (ids : List (Option Val)) : UnitOfWork Unit :=
  fun db => do
    let bodies ← serializeBatch (ids.zip nodes)
    let db' ← execMany db bodies
    .ok (db', ())

/-- `upsert_node` (database.py:113-117): the returned unit of work
upserts one node. -/
def upsert_node (identifier : Option Val) (data : Attrs) : UnitOfWork Unit :=
  fun db => (upsert_node_op db identifier data).map (fun db' => (db', ()))

/-- The loop of `upsert_nodes`: one `_upsert_node` per pair, in order;
the first failure aborts the rest. -/
def upsertMany : DB → List (Option Val × Attrs) → Except PyExc DB
  | db, [] => .ok db
  | db, p :: ps => do
      let db' ← upsert_node_op db p.1 p.2
      upsertMany db' ps

/-- `upsert_nodes` (database.py:120-125): one upsert per `(id, node)`
pair of `zip(ids, nodes)`, in input order. -/
def upsert_nodes (nodes : List Attrs) (ids : List (Option Val)) : UnitOfWork Unit :=
  fun db => do
    let db' ← upsertMany db (ids.zip nodes)
    .ok (db', ())

/-- `connect_nodes` (database.py:128-139): serialize the properties and
append one edge row (no endpoint existence check). -/
def connect_nodes (source target : Val) (properties : Attrs) : UnitOfWork Unit :=
  fun db => do
    let _ ← serialize properties
    .ok ({ db with edges := db.edges ++ [⟨source, target, properties⟩] }, ())

/-- `remove_node` (database.py:159-170): first `delete-edge.sql` bound
to `(identifier, identifier)` — modelled from the spec: delete all
edges in which the node is source or target — then `delete-node.sql`
deleting the node row, in that order, in one unit of work. -/
def remove_node (identifier : Val) : UnitOfWork Unit :=
  fun db =>
    let afterEdges :=
      { db with edges := db.edges.filter (fun e => ¬(e.src = identifier ∨ e.tgt = identifier)) }
    let afterNode :=
      { afterEdges with nodes := afterEdges.nodes.filter (fun b => ¬ nodeId b = some identifier) }
    .ok (afterNode, ())

/-- `get_connections` (database.py:314-323), applied to a cursor on
`db`: `search-edges.sql` bound to `(identifier, identifier)` — modelled
from the spec: all edges in which the node is source or target. -/
def get_connections (db : DB) (identifier : Val) : List Edge :=
  db.edges.filter (fun e => e.src = identifier ∨ e.tgt = identifier)

/-- `atomic` (database.py:37-48): open a fresh connection, run the unit
of work, and `commit()` on normal return.  The `try` has no `except`
clause and its `finally` body is `if connection: pass`, so on a failure
inside the unit of work the raised exception propagates unchanged, no
rollback statement is issued, and — the commit never having run — the
committed state later callers observe (each through its own fresh
connection) is unchanged.  Returns the committed state paired with the
outcome. -/
def atomic (committed : DB) (uow : UnitOfWork α) : DB × Except PyExc α :=
  match uow committed with
  | .ok (db', a) => (db', .ok a)
  | .error e => (committed, .error e)

/-- The body-less branch of the loop of `traverse`
(database.py:277-294, `with_bodies` false): walk the fetched adjacency
rows in order; an identifier already in `path` is skipped, a new one is
appended, and as soon as the appended identifier equals `target` the
loop breaks.  `target` is `json.dumps(tgt)` and each row's first column
is an identifier in the same serialized form; both are strings here. -/
def traverseLoop (target : String) : List String → List String → List String
  | [], path => path
  | r :: rs, path =>
      if r ∈ path then traverseLoop target rs path
      else if r = target then path ++ [r]
      else traverseLoop target rs (path ++ [r])

/-- The same walk with the break removed: the full one-hop frontier,
i.e. the adjacency rows deduplicated keeping first occurrences. -/
def frontier : List String → List String → List String
  | [], path => path
  | r :: rs, path =>
      if r ∈ path then frontier rs path
      else frontier rs (path ++ [r])

/-- A row produced by `vector-search-node.sql` as consumed by
`vector_search_node` (sqlitevss.py:163-197): `cols` are the row's
columns other than index 4; `dist` is `node[4]`, the distance column
the threshold filter reads. -/
structure NodeSearchRow where
  cols : List Val
  dist : ℚ
deriving DecidableEq, Repr

/-- The result-shaping logic of `SQLiteVSS.vector_search_node`
(sqlitevss.py:163-197) on the rows fetched by the scan: `None` when the
scan yields no rows; with a threshold, keep the candidates whose
distance is strictly below it and cut the filtered list to `limit`;
without one, cut the fetched rows to `limit`. -/
def vector_search_node (rows : List NodeSearchRow) (threshold : Option ℚ)
    (limit : ℕ) : Option (List NodeSearchRow) :=
  if rows.isEmpty then none
  else
    match threshold with
    | some t => some ((rows.filter (fun r => r.dist < t)).take limit)
    | none => some (rows.take limit)

/-- The argument a caller hands to `delete_node_embedding` /
`delete_edge_embedding`: any Python object; the code subscripts it
(`id[0]`, sqlitevss.py:121 and 128). -/
inductive OwnerArg where
  | int : Int → OwnerArg
  | str : String → OwnerArg
  | tup : List Val → OwnerArg
deriving DecidableEq, Repr

/-- Python `x[0]`: the first element of a tuple, the first character of
a string (as a 1-character string), `TypeError` on an integer,
`IndexError` on an empty sequence. -/
def subscript0 : OwnerArg → Except PyExc Val
  | .int _ => .error .typeError
  | .str s => if s.isEmpty then .error .indexError else .ok (.vstr (String.singleton s.front))
  | .tup [] => .error .indexError
  | .tup (x :: _) => .ok x

/-- The embedding table as the deletes see it: one row per embedding,
carrying the owner identifier it belongs to (modelled from the spec:
the `delete-node-embedding.sql` / `delete-edge-embedding.sql` files are
not in the sources; the spec says they remove embedding rows by owner
identifier). -/
abbrev EmbStore := List (Val × ℕ)

/-- `SQLiteVSS._remove_node` (sqlitevss.py:119-123): execute the delete
bound to `id[0]`.  Modelled from the spec: the delete removes the rows
whose owner equals the bound value. -/
def vss_remove_node (emb : EmbStore) (id : OwnerArg) : Except PyExc EmbStore := do
  let owner ← subscript0 id
  .ok (emb.filter (fun r => ¬ r.1 = owner))

/-- `SQLiteVSS._remove_edge` (sqlitevss.py:125-130): for each element
of `ids`, execute the delete bound to `id[0]`. -/
def vss_remove_edge (emb : EmbStore) (ids : List OwnerArg) : Except PyExc EmbStore :=
  ids.foldlM (fun e id => do
    let owner ← subscript0 id
    .ok (e.filter (fun r => ¬ r.1 = owner))) emb

/-!
## Heap model

Python dicts are mutable objects passed by reference.  To settle the
frame-effect claims, the operations that touch the caller's mapping are
re-traced on an explicit heap: `Heap` is the object store, a reference
is an index into it, and `_set_id`'s assignment `data["id"] =
identifier` is an update of the referenced object in place. -/
abbrev Heap := List Attrs

/-- `_set_id` on the heap (database.py:62-65, sqlitevss.py:46-49): when
an identifier is supplied, assign `data["id"] = identifier` on the
object `r` refers to — mutating it, not a copy — and return the same
reference. -/
def set_id_h (heap : Heap) (identifier : Option Val) (r : ℕ) : Heap :=
  match identifier with
  | none => heap
  | some i => heap.set r (dinsert (heap.getD r []) "id" i)

/-- `_insert_node` on the heap (database.py:68-71): `_set_id` mutates
the caller's mapping first; then `json.dumps` of the mutated object and
the insert run. -/
def insert_node_h (heap : Heap) (db : DB) (identifier : Option Val) (r : ℕ) :
    Heap × Except PyExc DB :=
  let heap' := set_id_h heap identifier r
  (heap', do
    let body ← serialize (heap'.getD r [])
    insertNodeRow db body)

/-- `_upsert_node` on the heap (database.py:96-110): in the
absent-record branch, `_insert_node` runs on the caller's mapping; in
the present-record branch, `{**current_data, **data}` allocates a fresh
dict, `_set_id` mutates that fresh dict, and the caller's mapping is
never written. -/
def upsert_node_h (heap : Heap) (db : DB) (identifier : Option Val) (r : ℕ) :
    Heap × Except PyExc DB :=
  let current := find_node db identifier
  if current = [] then insert_node_h heap db identifier r
  else
    let merged := dmerge current (heap.getD r [])
    let rNew := heap.length
    let heap' := set_id_h (heap ++ [merged]) identifier rNew
    (heap', do
      let body ← serialize (heap'.getD rNew [])
      .ok (updateWhereId db identifier body))

/-- `SQLiteVSS._add_embedding` on the heap (sqlitevss.py:51-73):
`set_data = self._set_id(id, data)` mutates the caller's mapping; then
`count = COALESCE(MAX(rowid), 0) + 1` and the insert of
`(count, embedding(json.dumps(set_data)))` run. -/
def add_embedding_h (heap : Heap) (maxRowid : ℕ) (identifier : Option Val) (r : ℕ) :
    Heap × ℕ :=
  let heap' := set_id_h heap identifier r
  (heap', maxRowid + 1)

/-- The persistence invariant of the node table: every stored body
carries an `id` field (which the generated `id` column mirrors). -/
def goodDB (db : DB) : Prop :=
  ∀ b ∈ db.nodes, (nodeId b).isSome = true

instance {ε α : Type} [DecidableEq ε] [DecidableEq α] : DecidableEq (Except ε α) := fun x y =>
  match x, y with
  | .ok a, .ok b =>
      if h : a = b then .isTrue (by rw [h]) else .isFalse (fun hc => h (Except.ok.inj hc))
  | .error e, .error f =>
      if h : e = f then .isTrue (by rw [h]) else .isFalse (fun hc => h (Except.error.inj hc))
  | .ok _, .error _ => .isFalse (fun hc => Except.noConfusion hc)
  | .error _, .ok _ => .isFalse (fun hc => Except.noConfusion hc)

/-!
## Lemmas about the dictionary operations
-/

lemma dget_dinsert_self (d : Attrs) (k : String) (v : Val) :
    dget (dinsert d k v) k = some v := by
  induction d with
  | nil => simp [dinsert, dget, List.find?]
  | cons p ps ih =>
      by_cases h : p.1 = k
      · simp [dinsert, h, dget, List.find?]
      · simpa [dinsert, h, dget, List.find?] using ih

lemma dget_dinsert_ne (d : Attrs) (k k' : String) (v : Val) (h : k' ≠ k) :
    dget (dinsert d k v) k' = dget d k' := by
  induction d with
  | nil => simp [dinsert, dget, List.find?, Ne.symm h]
  | cons p ps ih =>
      by_cases hp : p.1 = k
      · subst hp
        simp [dinsert, dget, List.find?, Ne.symm h, h]
      · have h1 : dinsert (p :: ps) k v = p :: dinsert ps k v := by
          simp [dinsert, hp]
        rw [h1]
        by_cases hp' : p.1 = k'
        · simp [dget, List.find?, hp']
        · simpa [dget, List.find?, hp'] using ih

lemma nodeId_set_id (i : Val) (d : Attrs) :
    nodeId (set_id (some i) d) = some i := by
  simp [set_id, nodeId, dget_dinsert_self]

lemma serializableAttrs_dinsert (d : Attrs) (k : String) (v : Val)
    (hd : serializableAttrs d = true) (hv : serializableVal v = true) :
    serializableAttrs (dinsert d k v) = true := by
  induction d with
  | nil => simp [dinsert, serializableAttrs, hv]
  | cons p ps ih =>
      simp only [serializableAttrs, List.all_cons, Bool.and_eq_true] at hd
      by_cases h : p.1 = k
      · simp [dinsert, h, serializableAttrs, List.all_cons, hv, hd.2]
      · have := ih hd.2
        simp only [serializableAttrs] at this
        simp [dinsert, h, serializableAttrs, List.all_cons, hd.1, this]

lemma dget_eq_none_of_forall (d : Attrs) (k : String)
    (h : ∀ p ∈ d, ¬ p.1 = k) : dget d k = none := by
  have hf : List.find? (fun p => decide (p.1 = k)) d = none :=
    List.find?_eq_none.mpr (by intro x hx; simpa using h x hx)
  simp [dget, hf]

lemma dget_dmerge (old new : Attrs) (hnd : (dkeys new).Nodup) (k : String) :
    dget (dmerge old new) k = (dget new k).orElse (fun _ => dget old k) := by
  induction new generalizing old with
  | nil => simp [dmerge, dget, List.find?, Option.orElse]
  | cons p ps ih =>
      have hnotin : p.1 ∉ dkeys ps := by
        simp only [dkeys, List.map_cons, List.nodup_cons] at hnd
        exact hnd.1
      have hnd' : (dkeys ps).Nodup := by
        simp only [dkeys, List.map_cons, List.nodup_cons] at hnd
        exact hnd.2
      have hmerge : dmerge old (p :: ps) = dmerge (dinsert old p.1 p.2) ps := by
        simp [dmerge]
      rw [hmerge, ih _ hnd']
      by_cases h : k = p.1
      · subst h
        have hnone : dget ps p.1 = none := by
          apply dget_eq_none_of_forall
          intro q hq hq1
          exact hnotin (hq1 ▸ List.mem_map_of_mem Prod.fst hq)
        have hhead : dget (p :: ps) p.1 = some p.2 := by
          simp [dget, List.find?]
        rw [hnone, hhead, dget_dinsert_self]
        rfl
      · have hrw := dget_dinsert_ne old p.1 k p.2 h
        simp only [hrw]
        have hcons : dget (p :: ps) k = dget ps k := by
          simp [dget, List.find?, Ne.symm h]
        rw [hcons]

/-!
## C1 — the transaction wrapper
-/

@[simp] lemma except_bind_ok {ε α β : Type} (a : α) (f : α → Except ε β) :
    (Except.ok a >>= f : Except ε β) = f a := rfl

@[simp] lemma except_bind_error {ε α β : Type} (e : ε) (f : α → Except ε β) :
    (Except.error e >>= f : Except ε β) = Except.error e := rfl

lemma serializeBatch_error (l : List (Option Val × Attrs))
    (h : l.any (fun p => !serializableAttrs (set_id p.1 p.2)) = true) :
    serializeBatch l = .error .jsonUnserializable := by
  induction l with
  | nil => simp at h
  | cons p ps ih =>
      simp only [List.any_cons, Bool.or_eq_true] at h
      by_cases hp : serializableAttrs (set_id p.1 p.2) = true
      · have hps := h.resolve_left (by simp [hp])
        simp [serializeBatch, serialize, hp, ih hps]
      · simp [serializeBatch, serialize, hp]

/-- **C1** (corrected): `atomic` opens a connection, executes the unit
of work and commits on normal return; on a failure inside the unit of
work the underlying exception propagates unchanged — it is *not*
wrapped in a `TransactionError`, and no rollback statement is issued —
but, the commit never having run, the committed state later callers
observe is the state from before the unit of work; in particular a
batch `add_nodes` in which one element is unserializable raises before
any insert and persists zero of the batch's nodes. -/
theorem C1_atomic_commit_skip :
    (∀ (α : Type) (db : DB) (uow : UnitOfWork α) (r : DB × α), uow db = .ok r →
        atomic db uow = (r.1, .ok r.2)) ∧
    (∀ (α : Type) (db : DB) (uow : UnitOfWork α) (e : PyExc), uow db = .error e →
        atomic db uow = (db, .error e)) ∧
    (∀ (db : DB) (nodes : List Attrs) (ids : List (Option Val)),
        (ids.zip nodes).any (fun p => !serializableAttrs (set_id p.1 p.2)) = true →
        atomic db (add_nodes nodes ids) = (db, .error .jsonUnserializable)) := by
  refine ⟨?_, ?_, ?_⟩
  · intro α db uow r h
    simp [atomic, h]
  · intro α db uow e h
    simp [atomic, h]
  · intro db nodes ids h
    have hb := serializeBatch_error (ids.zip nodes) h
    have huow : add_nodes nodes ids db = .error .jsonUnserializable := by
      simp [add_nodes, hb]
    simp [atomic, huow]

/-- Witness for C1: a concrete successful insert commits, and a
concrete batch with one unserializable node leaves the empty store
unchanged with the raw `json.dumps` error. -/
theorem C1_witness :
    atomic emptyDB (add_node [("a", Val.vint 1)] (some (Val.vstr "1"))) =
      (⟨[[("a", Val.vint 1), ("id", Val.vstr "1")]], []⟩, .ok ()) ∧
    atomic emptyDB (add_nodes [[("a", Val.vint 1)], [("x", Val.vbad)]]
        [some (Val.vstr "1"), some (Val.vstr "2")]) = (emptyDB, .error .jsonUnserializable) :=
  ⟨by
    have h := C1_atomic_commit_skip.1 Unit emptyDB
      (add_node [("a", Val.vint 1)] (some (Val.vstr "1")))
      (⟨[[("a", Val.vint 1), ("id", Val.vstr "1")]], []⟩, ()) (by decide)
    simpa using h,
   C1_atomic_commit_skip.2.2 emptyDB [[("a", Val.vint 1)], [("x", Val.vbad)]]
     [some (Val.vstr "1"), some (Val.vstr "2")] (by decide)⟩

/-- Counterexample to C1 as stated: on the malformed batch the failure
surfaces as the raw `json.dumps` `TypeError`, not as a
`TransactionError` wrapping it (no such wrapping happens anywhere: the
`try` in `atomic` has no `except` clause). -/
theorem C1_counterexample :
    (atomic emptyDB (add_nodes [[("a", Val.vint 1)], [("x", Val.vbad)]]
        [some (Val.vstr "1"), some (Val.vstr "2")])).2 =
      .error .jsonUnserializable ∧
    isTransactionError .jsonUnserializable = false ∧
    (atomic emptyDB (add_nodes [[("a", Val.vint 1)], [("x", Val.vbad)]]
        [some (Val.vstr "1"), some (Val.vstr "2")])).1 = emptyDB := by
  decide

/-!
## C6 — vector_search_node: threshold filter, limit, None vs empty
-/

/-- **C6** (confirmed): `vector_search_node` returns `None` when the
scan yields zero rows; with a threshold it keeps exactly the candidates
whose distance is strictly below the threshold and applies the limit to
the filtered list; a nonempty scan all of whose rows fail the threshold
yields the empty sequence, distinct from `None`. -/
theorem C6_vector_search_threshold :
    (∀ (th : Option ℚ) (limit : ℕ), vector_search_node [] th limit = none) ∧
    (∀ (rows : List NodeSearchRow) (t : ℚ) (limit : ℕ), rows ≠ [] →
        vector_search_node rows (some t) limit =
          some ((rows.filter (fun r => r.dist < t)).take limit)) ∧
    (∀ (rows : List NodeSearchRow) (t : ℚ) (limit : ℕ), rows ≠ [] →
        (∀ r ∈ rows, ¬ r.dist < t) →
        vector_search_node rows (some t) limit = some [] ∧
        some ([] : List NodeSearchRow) ≠ none) := by
  refine ⟨?_, ?_, ?_⟩
  · intro th limit
    simp [vector_search_node]
  · intro rows t limit h
    have he : rows.isEmpty = false := by
      simpa [List.isEmpty_iff] using h
    simp [vector_search_node, he]
  · intro rows t limit h hall
    have he : rows.isEmpty = false := by
      simpa [List.isEmpty_iff] using h
    have hf : rows.filter (fun r => decide (r.dist < t)) = [] := by
      rw [List.filter_eq_nil_iff]
      intro r hr
      simpa using hall r hr
    refine ⟨?_, by simp⟩
    simp [vector_search_node, he, hf]

/-- Witness for C6 at concrete inputs: a row of distance 1 passes a
threshold of 2, a row of distance 3 fails it, and an all-fail scan
yields `some []`. -/
theorem C6_witness :
    vector_search_node [] (some (1 : ℚ)) 2 = none ∧
    vector_search_node [⟨[], (1 : ℚ)⟩, ⟨[], (3 : ℚ)⟩] (some 2) 5 = some [⟨[], 1⟩] ∧
    vector_search_node [⟨[], (3 : ℚ)⟩] (some 2) 5 = some [] :=
  ⟨C6_vector_search_threshold.1 (some 1) 2,
   (C6_vector_search_threshold.2.1 [⟨[], (1 : ℚ)⟩, ⟨[], (3 : ℚ)⟩] 2 5 (by decide)).trans
     (by norm_num),
   (C6_vector_search_threshold.2.2 [⟨[], (3 : ℚ)⟩] 2 5 (by decide)
     (by intro r hr; simp at hr; simp [hr]; norm_num)).1⟩

/-!
## C8 — find_node on a missing identifier
-/

/-- **C8** (confirmed): when no node with the given identifier exists,
`find_node` returns the empty mapping (its body-shaping is
`{} if not result else json.loads(result[0])`); "not found" raises
nothing. -/
theorem C8_find_node_missing :
    ∀ (db : DB) (i : Val), (∀ b ∈ db.nodes, ¬ nodeId b = some i) →
      find_node db (some i) = [] := by
  intro db i h
  have hf : List.find? (fun b => matchesId b (some i)) db.nodes = none := by
    rw [List.find?_eq_none]
    intro b hb
    simp [matchesId, h b hb]
  simp [find_node, hf]

/-- Witness for C8: looking up `"B"` in a store holding only node
`"A"` yields the empty mapping. -/
theorem C8_witness :
    find_node ⟨[[("id", Val.vstr "A")]], []⟩ (some (Val.vstr "B")) = [] :=
  C8_find_node_missing ⟨[[("id", Val.vstr "A")]], []⟩ (Val.vstr "B") (by decide)

/-!
## C9 — deleting embedding rows by owner
-/

/-- **C9** (corrected): `_remove_node` / `_remove_edge` bind `id[0]` —
the *first element* of each given identifier — as the owner to delete;
handed a row tuple whose first element is the owner identifier, they
remove exactly that owner's embedding rows and complete without error
when no such rows exist. -/
theorem C9_delete_embeddings_by_row :
    (∀ (emb : EmbStore) (i : Val) (rest : List Val),
        vss_remove_node emb (.tup (i :: rest)) =
          .ok (emb.filter (fun r => ¬ r.1 = i))) ∧
    (∀ (emb : EmbStore) (i : Val) (rest : List Val), (∀ r ∈ emb, ¬ r.1 = i) →
        vss_remove_node emb (.tup (i :: rest)) = .ok emb) ∧
    (∀ (emb : EmbStore) (i : Val) (rest : List Val),
        vss_remove_edge emb [.tup (i :: rest)] =
          .ok (emb.filter (fun r => ¬ r.1 = i))) ∧
    (∀ (emb : EmbStore) (i : Val) (rest : List Val), (∀ r ∈ emb, ¬ r.1 = i) →
        vss_remove_edge emb [.tup (i :: rest)] = .ok emb) := by
  have hnode : ∀ (emb : EmbStore) (i : Val) (rest : List Val),
      vss_remove_node emb (.tup (i :: rest)) =
        .ok (emb.filter (fun r => ¬ r.1 = i)) := by
    intro emb i rest
    simp [vss_remove_node, subscript0]
  have hself : ∀ (emb : EmbStore) (i : Val), (∀ r ∈ emb, ¬ r.1 = i) →
      emb.filter (fun r => ¬ r.1 = i) = emb := by
    intro emb i h
    rw [List.filter_eq_self]
    intro r hr
    simpa using h r hr
  have hedge : ∀ (emb : EmbStore) (i : Val) (rest : List Val),
      vss_remove_edge emb [.tup (i :: rest)] =
        .ok (emb.filter (fun r => ¬ r.1 = i)) := by
    intro emb i rest
    simp [vss_remove_edge, subscript0, List.foldlM]
  refine ⟨hnode, ?_, hedge, ?_⟩
  · intro emb i rest h
    rw [hnode, hself emb i h]
  · intro emb i rest h
    rw [hedge, hself emb i h]

/-- Witness for C9: a singleton row tuple deletes the matching owner's
rows, and deleting an absent owner is not an error. -/
theorem C9_witness :
    vss_remove_node [(Val.vstr "node1", 1), (Val.vstr "m", 2)]
      (.tup [Val.vstr "node1"]) = .ok [(Val.vstr "m", 2)] ∧
    vss_remove_edge [] [.tup [Val.vstr "absent"]] = .ok [] :=
  ⟨(C9_delete_embeddings_by_row.1 [(Val.vstr "node1", 1), (Val.vstr "m", 2)]
      (Val.vstr "node1") []).trans (by decide),
   C9_delete_embeddings_by_row.2.2.2 [] (Val.vstr "absent") [] (by decide)⟩

/-- Counterexample to C9 as stated: handing `_remove_node` the owner
identifier itself misbehaves — a string identifier deletes by its first
character (the rows owned by `"node1"` survive), and an integer
identifier raises `TypeError` even when no embedding rows exist. -/
theorem C9_counterexample :
    vss_remove_node [(Val.vstr "node1", 1)] (.str "node1") =
      .ok [(Val.vstr "node1", 1)] ∧
    vss_remove_node [] (.int 5) = .error .typeError := by
  decide

/-!
## C3 — the traversal loop with `with_bodies` false
-/

lemma traverseLoop_nodup (t : String) (rows : List String) :
    ∀ path : List String, path.Nodup → (traverseLoop t rows path).Nodup := by
  induction rows with
  | nil => intro path h; simpa [traverseLoop] using h
  | cons r rs ih =>
      intro path h
      by_cases hm : r ∈ path
      · simpa [traverseLoop, hm] using ih path h
      · have happ : (path ++ [r]).Nodup := by
          simp [List.nodup_append, h, hm]
        by_cases ht : r = t
        · subst ht
          simpa [traverseLoop, hm] using happ
        · simpa [traverseLoop, hm, ht] using ih _ happ

lemma traverseLoop_no_target (t : String) (rows : List String) :
    ∀ path : List String, t ∉ rows → traverseLoop t rows path = frontier rows path := by
  induction rows with
  | nil => intro path _; simp [traverseLoop, frontier]
  | cons r rs ih =>
      intro path h
      have hr : ¬ r = t := by
        intro hc
        exact h (by simp [hc])
      have hrs : t ∉ rs := fun hm => h (by simp [hm])
      by_cases hm : r ∈ path
      · simp [traverseLoop, frontier, hm, ih _ hrs]
      · simp [traverseLoop, frontier, hm, hr, ih _ hrs]

lemma traverseLoop_break (t : String) (rows₁ : List String) (rows₂ : List String) :
    ∀ path : List String, t ∉ rows₁ → t ∉ path →
      traverseLoop t (rows₁ ++ t :: rows₂) path = frontier rows₁ path ++ [t] := by
  induction rows₁ with
  | nil =>
      intro path _ hp
      simp [traverseLoop, frontier, hp]
  | cons r rs ih =>
      intro path h1 hp
      have hr : ¬ r = t := by
        intro hc
        exact h1 (by simp [hc])
      have hrs : t ∉ rs := fun hm => h1 (by simp [hm])
      by_cases hm : r ∈ path
      · simp [traverseLoop, frontier, hm, ih path hrs hp]
      · have hp' : t ∉ path ++ [r] := by
          simp only [List.mem_append, List.mem_singleton]
          rintro (hc | hc)
          · exact hp hc
          · exact hr hc.symm
        simp [traverseLoop, frontier, hm, hr, ih _ hrs hp']

/-- **C3** (confirmed): the body-less traversal loop appends only
identifiers not already in the path (the result is duplicate-free);
with no adjacency rows the path is empty; when the target is absent
from the rows the whole deduplicated one-hop frontier is returned, no
error raised; and the loop stops at the first appended identifier equal
to the target, ignoring every row after it. -/
theorem C3_traverse_loop :
    (∀ (target : String) (rows : List String), (traverseLoop target rows []).Nodup) ∧
    (∀ target : String, traverseLoop target [] [] = []) ∧
    (∀ (target : String) (rows : List String), target ∉ rows →
        traverseLoop target rows [] = frontier rows []) ∧
    (∀ (target : String) (rows₁ rows₂ : List String), target ∉ rows₁ →
        traverseLoop target (rows₁ ++ target :: rows₂) [] =
          frontier rows₁ [] ++ [target]) :=
  ⟨fun t rows => traverseLoop_nodup t rows [] (by simp),
   fun _ => rfl,
   fun t rows h => traverseLoop_no_target t rows [] h,
   fun t r1 r2 h => traverseLoop_break t r1 r2 [] h (by simp)⟩

/-- Witness for C3: a concrete walk dedupes, stops at the target, and
returns the full deduplicated frontier when the target is missing. -/
theorem C3_witness :
    traverseLoop "T" ["A", "B", "A", "T", "C"] [] = ["A", "B", "T"] ∧
    traverseLoop "T" [] [] = [] ∧
    traverseLoop "T" ["A", "B", "A"] [] = ["A", "B"] :=
  ⟨(C3_traverse_loop.2.2.2 "T" ["A", "B", "A"] ["C"] (by decide)).trans (by decide),
   C3_traverse_loop.2.1 "T",
   (C3_traverse_loop.2.2.1 "T" ["A", "B", "A"] (by decide)).trans (by decide)⟩

/-!
## C4 — remove_node cascades over incident edges
-/

lemma find?_filter_compat {α : Type} (p q : α → Bool) (l : List α)
    (h : ∀ x, p x = true → q x = true) :
    (l.filter q).find? p = l.find? p := by
  induction l with
  | nil => rfl
  | cons x xs ih =>
      by_cases hq : q x = true
      · by_cases hp : p x = true
        · simp [List.filter_cons, hq, List.find?_cons, hp]
        · simp [List.filter_cons, hq, List.find?_cons, hp, ih]
      · have hp : p x = false := by
          cases hpx : p x
          · rfl
          · exact absurd (h x hpx) hq
        simp [List.filter_cons, hq, List.find?_cons, hp, ih]

/-- **C4** (confirmed): `remove_node(A)`, run through `atomic`, deletes
every edge in which `A` is source or target and keeps every other edge;
a node `B ≠ A` is still found unchanged while `A` itself is gone; and
when every edge incident to some `B` was also incident to `A` (as with
a single edge `A→B`), `get_connections(B)` afterwards is empty. -/
theorem C4_remove_node_cascade :
    ∀ (db : DB) (A : Val),
      (∀ e ∈ (atomic db (remove_node A)).1.edges, ¬ e.src = A ∧ ¬ e.tgt = A) ∧
      (∀ e ∈ db.edges, ¬ e.src = A → ¬ e.tgt = A →
          e ∈ (atomic db (remove_node A)).1.edges) ∧
      (∀ B : Val, ¬ B = A →
          find_node (atomic db (remove_node A)).1 (some B) = find_node db (some B)) ∧
      find_node (atomic db (remove_node A)).1 (some A) = [] ∧
      (∀ B : Val, (∀ e ∈ db.edges, (e.src = B ∨ e.tgt = B) → (e.src = A ∨ e.tgt = A)) →
          get_connections (atomic db (remove_node A)).1 B = []) := by
  intro db A
  have hst : (atomic db (remove_node A)).1 =
      ⟨db.nodes.filter (fun b => ¬ nodeId b = some A),
       db.edges.filter (fun e => ¬(e.src = A ∨ e.tgt = A))⟩ := rfl
  rw [hst]
  refine ⟨?_, ?_, ?_, ?_, ?_⟩
  · intro e he
    have := (List.mem_filter.mp he).2
    simp only [decide_not, Bool.not_eq_true'] at this
    constructor
    · intro hc
      simp [hc] at this
    · intro hc
      simp [hc] at this
  · intro e he h1 h2
    exact List.mem_filter.mpr ⟨he, by simp [h1, h2]⟩
  · intro B hB
    have hcomp : ∀ b : Attrs, matchesId b (some B) = true →
        (decide (¬ nodeId b = some A)) = true := by
      intro b hb
      simp only [matchesId, beq_iff_eq] at hb
      simp [hb, hB]
    simp only [find_node]
    rw [find?_filter_compat _ _ _ hcomp]
  · simp only [find_node]
    have : (db.nodes.filter (fun b => ¬ nodeId b = some A)).find?
        (fun b => matchesId b (some A)) = none := by
      rw [List.find?_eq_none]
      intro b hb
      have := (List.mem_filter.mp hb).2
      simp only [decide_not, Bool.not_eq_true', decide_eq_false_iff_not] at this
      simp [matchesId, this]
    rw [this]
    rfl
  · intro B hB
    simp only [get_connections]
    rw [List.filter_eq_nil_iff]
    intro e he
    have hmem := (List.mem_filter.mp he).1
    have hnotA := (List.mem_filter.mp he).2
    simp only [decide_not, Bool.not_eq_true', decide_eq_false_iff_not] at hnotA
    intro hc
    simp only [decide_eq_true_eq] at hc
    exact hnotA (hB e hmem hc)

/-- Witness for C4: with nodes `A`, `B` and the single edge `A→B`,
`remove_node(A)` leaves `find_node(B)` intact and `get_connections(B)`
empty. -/
theorem C4_witness :
    find_node (atomic ⟨[[("id", Val.vstr "A")], [("id", Val.vstr "B")]],
        [⟨Val.vstr "A", Val.vstr "B", []⟩]⟩ (remove_node (Val.vstr "A"))).1
      (some (Val.vstr "B")) = [("id", Val.vstr "B")] ∧
    get_connections (atomic ⟨[[("id", Val.vstr "A")], [("id", Val.vstr "B")]],
        [⟨Val.vstr "A", Val.vstr "B", []⟩]⟩ (remove_node (Val.vstr "A"))).1
      (Val.vstr "B") = [] := by
  have h := C4_remove_node_cascade
    ⟨[[("id", Val.vstr "A")], [("id", Val.vstr "B")]],
      [⟨Val.vstr "A", Val.vstr "B", []⟩]⟩ (Val.vstr "A")
  refine ⟨(h.2.2.1 (Val.vstr "B") (by decide)).trans (by decide), ?_⟩
  exact h.2.2.2.2 (Val.vstr "B") (by decide)

/-!
## C5 — round trip: find_node after add_node
-/

lemma serialize_ok {d b : Attrs} (h : serialize d = .ok b) : b = d := by
  unfold serialize at h
  by_cases hs : serializableAttrs d = true
  · rw [if_pos hs] at h
    exact (Except.ok.inj h).symm
  · rw [if_neg hs] at h
    exact absurd h (by simp)

lemma find?_append_last {α : Type} (p : α → Bool) (l : List α) (x : α)
    (h : ∀ b ∈ l, p b = false) (hx : p x = true) :
    (l ++ [x]).find? p = some x := by
  induction l with
  | nil => simp [List.find?_cons, hx]
  | cons y ys ih =>
      have hy : p y = false := h y (by simp)
      simp only [List.cons_append, List.find?_cons, hy]
      exact ih (fun b hb => h b (by simp [hb]))

/-- **C5** (confirmed): for a serializable attribute mapping and a
fresh identifier, `add_node(attrs, id)` appends exactly `attrs` with
`"id"` bound to `id` as the stored body, and `find_node(id)` then
returns exactly that mapping — `attrs` with `id` injected and nothing
else. -/
theorem C5_round_trip :
    ∀ (db : DB) (i : Val) (attrs : Attrs),
      serializableAttrs attrs = true → serializableVal i = true →
      (∀ b ∈ db.nodes, ¬ nodeId b = some i) →
      add_node attrs (some i) db =
        .ok (⟨db.nodes ++ [dinsert attrs "id" i], db.edges⟩, ()) ∧
      find_node ⟨db.nodes ++ [dinsert attrs "id" i], db.edges⟩ (some i) =
        dinsert attrs "id" i := by
  intro db i attrs hser hi h
  have hbody : serializableAttrs (dinsert attrs "id" i) = true :=
    serializableAttrs_dinsert attrs "id" i hser hi
  have hid : nodeId (dinsert attrs "id" i) = some i := by
    simp [nodeId, dget_dinsert_self]
  have hany : (db.nodes.any (fun b => nodeId b == some i)) = false := by
    rw [List.any_eq_false]
    intro b hb
    simp [h b hb]
  have hex : ¬ ∃ x ∈ db.nodes, nodeId x = some i := by
    rintro ⟨x, hx, hxe⟩
    exact h x hx hxe
  constructor
  · simp [add_node, insert_node, set_id, serialize, hbody, insertNodeRow, hid, hany,
      hex, Except.map]
  · have hf : (db.nodes ++ [dinsert attrs "id" i]).find?
        (fun b => matchesId b (some i)) = some (dinsert attrs "id" i) := by
      apply find?_append_last
      · intro b hb
        simp [matchesId, h b hb]
      · simp [matchesId, hid]
    simp [find_node, hf]

/-- Witness for C5: inserting `{"a": 1}` under identifier `"7"` into
the empty store and reading it back yields `{"a": 1, "id": "7"}`. -/
theorem C5_witness :
    add_node [("a", Val.vint 1)] (some (Val.vstr "7")) emptyDB =
      .ok (⟨[[("a", Val.vint 1), ("id", Val.vstr "7")]], []⟩, ()) ∧
    find_node ⟨[[("a", Val.vint 1), ("id", Val.vstr "7")]], []⟩
      (some (Val.vstr "7")) = [("a", Val.vint 1), ("id", Val.vstr "7")] := by
  have h := C5_round_trip emptyDB (Val.vstr "7") [("a", Val.vint 1)]
    (by decide) (by decide) (by decide)
  exact ⟨h.1, h.2⟩

/-!
## C7 — every persisted body carries its id
-/

lemma insertNodeRow_ok {db : DB} {b : Attrs} {db' : DB}
    (h : insertNodeRow db b = .ok db') :
    db'.nodes = db.nodes ++ [b] ∧ (nodeId b).isSome = true ∧ db'.edges = db.edges := by
  unfold insertNodeRow at h
  split at h
  · exact absurd h (by simp)
  next i hid =>
    split at h
    · exact absurd h (by simp)
    · have := Except.ok.inj h
      subst this
      simp [hid]

lemma insert_node_ok {db : DB} {id : Option Val} {data : Attrs} {db' : DB}
    (h : insert_node db id data = .ok db') :
    db'.nodes = db.nodes ++ [set_id id data] ∧
    (nodeId (set_id id data)).isSome = true ∧ db'.edges = db.edges := by
  unfold insert_node at h
  cases hs : serialize (set_id id data) with
  | error e =>
      rw [hs] at h
      simp at h
  | ok body =>
      rw [hs] at h
      simp only [except_bind_ok] at h
      have hb := serialize_ok hs
      subst hb
      exact insertNodeRow_ok h

lemma find_node_none (db : DB) : find_node db none = [] := by
  have : db.nodes.find? (fun b => matchesId b none) = none := by
    rw [List.find?_eq_none]
    intro b _
    simp [matchesId]
  simp [find_node, this]

lemma upsert_node_op_new_bodies {db : DB} {id : Option Val} {data : Attrs} {db' : DB}
    (h : upsert_node_op db id data = .ok db') :
    ∀ b ∈ db'.nodes, b ∈ db.nodes ∨
      ((nodeId b).isSome = true ∧ ∀ i, id = some i → nodeId b = some i) := by
  unfold upsert_node_op at h
  by_cases hcur : find_node db id = []
  · rw [if_pos hcur] at h
    intro b hb
    obtain ⟨hn, hsome, _⟩ := insert_node_ok h
    rw [hn] at hb
    rcases List.mem_append.mp hb with hb | hb
    · exact Or.inl hb
    · have hbe : b = set_id id data := by simpa using hb
      subst hbe
      refine Or.inr ⟨hsome, ?_⟩
      intro i hi
      subst hi
      exact nodeId_set_id i data
  · rw [if_neg hcur] at h
    have hidsome : ∃ i, id = some i := by
      cases id with
      | none => exact absurd (find_node_none db) hcur
      | some i => exact ⟨i, rfl⟩
    obtain ⟨i, rfl⟩ := hidsome
    cases hs : serialize (set_id (some i) (dmerge (find_node db (some i)) data)) with
    | error e =>
        rw [hs] at h
        simp at h
    | ok body =>
        rw [hs] at h
        simp only [except_bind_ok] at h
        have hb := serialize_ok hs
        subst hb
        have hdb' := Except.ok.inj h
        subst hdb'
        intro b hb
        simp only [updateWhereId] at hb
        obtain ⟨a, ha, hab⟩ := List.mem_map.mp hb
        by_cases hm : matchesId a (some i) = true
        · rw [if_pos hm] at hab
          subst hab
          refine Or.inr ⟨?_, ?_⟩
          · rw [nodeId_set_id]
            rfl
          · intro j hj
            rw [Option.some.inj hj] at *
            exact nodeId_set_id _ _
        · rw [if_neg hm] at hab
          subst hab
          exact Or.inl ha

lemma upsert_node_op_good {db : DB} {id : Option Val} {data : Attrs} {db' : DB}
    (h : upsert_node_op db id data = .ok db') (hg : goodDB db) : goodDB db' := by
  intro b hb
  rcases upsert_node_op_new_bodies h b hb with hmem | ⟨hsome, _⟩
  · exact hg b hmem
  · exact hsome

lemma execMany_good :
    ∀ (bodies : List Attrs) (db db' : DB), execMany db bodies = .ok db' →
      goodDB db → goodDB db' := by
  intro bodies
  induction bodies with
  | nil =>
      intro db db' h hg
      have := Except.ok.inj h
      subst this
      exact hg
  | cons b bs ih =>
      intro db db' h hg
      cases hr : insertNodeRow db b with
      | error e =>
          rw [execMany, hr] at h
          simp at h
      | ok dbm =>
          rw [execMany, hr] at h
          simp only [except_bind_ok] at h
          refine ih dbm db' h ?_
          obtain ⟨hn, hsome, _⟩ := insertNodeRow_ok hr
          intro x hx
          rw [hn] at hx
          rcases List.mem_append.mp hx with hx | hx
          · exact hg x hx
          · have : x = b := by simpa using hx
            subst this
            exact hsome

lemma upsertMany_good :
    ∀ (ps : List (Option Val × Attrs)) (db db' : DB), upsertMany db ps = .ok db' →
      goodDB db → goodDB db' := by
  intro ps
  induction ps with
  | nil =>
      intro db db' h hg
      have := Except.ok.inj h
      subst this
      exact hg
  | cons p ps ih =>
      intro db db' h hg
      cases hr : upsert_node_op db p.1 p.2 with
      | error e =>
          rw [upsertMany, hr] at h
          simp at h
      | ok dbm =>
          rw [upsertMany, hr] at h
          simp only [except_bind_ok] at h
          exact ih dbm db' h (upsert_node_op_good hr hg)

/-- **C7** (confirmed): every node body persisted by `add_node`,
`add_nodes`, `upsert_node` or `upsert_nodes` carries an `"id"` field
(which the generated `id` column — the node's identifier — mirrors),
and when the caller supplied an identifier, the body written by that
operation carries exactly that identifier. -/
theorem C7_id_field_invariant :
    (∀ (db : DB) (data : Attrs) (id : Option Val) (r : DB × Unit),
        add_node data id db = .ok r → goodDB db → goodDB r.1) ∧
    (∀ (db : DB) (nodes : List Attrs) (ids : List (Option Val)) (r : DB × Unit),
        add_nodes nodes ids db = .ok r → goodDB db → goodDB r.1) ∧
    (∀ (db : DB) (id : Option Val) (data : Attrs) (r : DB × Unit),
        upsert_node id data db = .ok r → goodDB db → goodDB r.1) ∧
    (∀ (db : DB) (nodes : List Attrs) (ids : List (Option Val)) (r : DB × Unit),
        upsert_nodes nodes ids db = .ok r → goodDB db → goodDB r.1) ∧
    (∀ (db : DB) (data : Attrs) (i : Val) (r : DB × Unit),
        add_node data (some i) db = .ok r →
        ∀ b ∈ r.1.nodes, b ∈ db.nodes ∨ nodeId b = some i) ∧
    (∀ (db : DB) (data : Attrs) (i : Val) (r : DB × Unit),
        upsert_node (some i) data db = .ok r →
        ∀ b ∈ r.1.nodes, b ∈ db.nodes ∨ nodeId b = some i) := by
  have hadd : ∀ (db : DB) (data : Attrs) (id : Option Val) (r : DB × Unit),
      add_node data id db = .ok r → insert_node db id data = .ok r.1 := by
    intro db data id r h
    unfold add_node at h
    cases hi : insert_node db id data with
    | error e =>
        rw [hi] at h
        simp [Except.map] at h
    | ok db' =>
        rw [hi] at h
        simp only [Except.map] at h
        have := Except.ok.inj h
        rw [← this]
  have hups : ∀ (db : DB) (id : Option Val) (data : Attrs) (r : DB × Unit),
      upsert_node id data db = .ok r → upsert_node_op db id data = .ok r.1 := by
    intro db id data r h
    unfold upsert_node at h
    cases hi : upsert_node_op db id data with
    | error e =>
        rw [hi] at h
        simp [Except.map] at h
    | ok db' =>
        rw [hi] at h
        simp only [Except.map] at h
        have := Except.ok.inj h
        rw [← this]
  refine ⟨?_, ?_, ?_, ?_, ?_, ?_⟩
  · intro db data id r h hg
    obtain ⟨hn, hsome, _⟩ := insert_node_ok (hadd db data id r h)
    intro b hb
    rw [hn] at hb
    rcases List.mem_append.mp hb with hb | hb
    · exact hg b hb
    · have : b = set_id id data := by simpa using hb
      subst this
      exact hsome
  · intro db nodes ids r h hg
    unfold add_nodes at h
    cases hs : serializeBatch (ids.zip nodes) with
    | error e =>
        rw [hs] at h
        simp at h
    | ok bodies =>
        rw [hs] at h
        simp only [except_bind_ok] at h
        cases he : execMany db bodies with
        | error e =>
            rw [he] at h
            simp at h
        | ok db' =>
            rw [he] at h
            simp only [except_bind_ok] at h
            have := Except.ok.inj h
            rw [← this]
            exact execMany_good bodies db db' he hg
  · intro db id data r h hg
    exact upsert_node_op_good (hups db id data r h) hg
  · intro db nodes ids r h hg
    unfold upsert_nodes at h
    cases he : upsertMany db (ids.zip nodes) with
    | error e =>
        rw [he] at h
        simp at h
    | ok db' =>
        rw [he] at h
        simp only [except_bind_ok] at h
        have := Except.ok.inj h
        rw [← this]
        exact upsertMany_good (ids.zip nodes) db db' he hg
  · intro db data i r h
    obtain ⟨hn, _, _⟩ := insert_node_ok (hadd db data (some i) r h)
    intro b hb
    rw [hn] at hb
    rcases List.mem_append.mp hb with hb | hb
    · exact Or.inl hb
    · have : b = set_id (some i) data := by simpa using hb
      subst this
      exact Or.inr (nodeId_set_id i data)
  · intro db data i r h
    intro b hb
    rcases upsert_node_op_new_bodies (hups db (some i) data r h) b hb with hm | ⟨_, hmir⟩
    · exact Or.inl hm
    · exact Or.inr (hmir i rfl)

/-- Witness for C7: a concrete `upsert_nodes` batch over a store
already holding node `"n"` preserves the invariant that every stored
body carries an `id` field. -/
theorem C7_witness :
    ∀ b ∈ ((⟨[[("a", Val.vint 1), ("id", Val.vstr "n"), ("b", Val.vint 2)]], []⟩ :
        DB).nodes), (nodeId b).isSome = true :=
  C7_id_field_invariant.2.2.2.1 ⟨[], []⟩
    [[("a", Val.vint 1)], [("b", Val.vint 2)]]
    [some (Val.vstr "n"), some (Val.vstr "n")]
    (⟨[[("a", Val.vint 1), ("id", Val.vstr "n"), ("b", Val.vint 2)]], []⟩, ())
    (by decide) (by intro b hb; simp at hb)

/-!
## C2 — upsert merge semantics
-/

/-- **C2** (corrected): `upsert_node` behaves as an insert when no
record exists; when one exists it stores the shallow last-write-wins
merge `{**current_data, **data}` with the `"id"` key then forced back
to the identifier by `_set_id` — so every key of `data` *other than*
`"id"` overwrites the old record's key, keys absent from `data` are
preserved wholesale (no deep merge), and the stored `"id"` is always
the identifier; the concrete `{"a":1}` / `{"b":2}` / `{"a":3}` chain
behaves exactly as the specification's example says. -/
theorem C2_upsert_merge_amended :
    (∀ (db : DB) (i : Val) (data : Attrs), find_node db (some i) = [] →
        upsert_node_op db (some i) data = insert_node db (some i) data) ∧
    (∀ (db : DB) (i : Val) (data old : Attrs), find_node db (some i) = old →
        ¬ old = [] →
        serializableAttrs (dinsert (dmerge old data) "id" i) = true →
        upsert_node_op db (some i) data =
          .ok (updateWhereId db (some i) (dinsert (dmerge old data) "id" i))) ∧
    (∀ (old data : Attrs) (i : Val), (dkeys data).Nodup →
        (∀ k, ¬ k = "id" →
            dget (dinsert (dmerge old data) "id" i) k =
              (dget data k).orElse (fun _ => dget old k)) ∧
        dget (dinsert (dmerge old data) "id" i) "id" = some i) ∧
    (upsert_node_op emptyDB (some (Val.vstr "n")) [("a", Val.vint 1)] =
        .ok ⟨[[("a", Val.vint 1), ("id", Val.vstr "n")]], []⟩ ∧
      upsert_node_op ⟨[[("a", Val.vint 1), ("id", Val.vstr "n")]], []⟩
          (some (Val.vstr "n")) [("b", Val.vint 2)] =
        .ok ⟨[[("a", Val.vint 1), ("id", Val.vstr "n"), ("b", Val.vint 2)]], []⟩ ∧
      dEquiv (find_node ⟨[[("a", Val.vint 1), ("id", Val.vstr "n"),
            ("b", Val.vint 2)]], []⟩ (some (Val.vstr "n")))
        [("id", Val.vstr "n"), ("a", Val.vint 1), ("b", Val.vint 2)] = true ∧
      upsert_node_op ⟨[[("a", Val.vint 1), ("id", Val.vstr "n"),
            ("b", Val.vint 2)]], []⟩ (some (Val.vstr "n")) [("a", Val.vint 3)] =
        .ok ⟨[[("a", Val.vint 3), ("id", Val.vstr "n"), ("b", Val.vint 2)]], []⟩ ∧
      dEquiv (find_node ⟨[[("a", Val.vint 3), ("id", Val.vstr "n"),
            ("b", Val.vint 2)]], []⟩ (some (Val.vstr "n")))
        [("id", Val.vstr "n"), ("a", Val.vint 3), ("b", Val.vint 2)] = true) := by
  refine ⟨?_, ?_, ?_, by decide⟩
  · intro db i data hcur
    unfold upsert_node_op
    rw [hcur]
    simp
  · intro db i data old hcur hold hser
    unfold upsert_node_op
    rw [hcur, if_neg hold]
    simp [set_id, serialize, hser]
  · intro old data i hnd
    constructor
    · intro k hk
      rw [dget_dinsert_ne _ _ _ _ hk]
      exact dget_dmerge old data hnd k
    · exact dget_dinsert_self _ _ _

/-- Witness for C2: the merge branch applied to an existing record
`{"a":1, "id":"n"}` with new data `{"b":2}`, and the merged mapping's
key `"b"` coming from the new data. -/
theorem C2_witness :
    upsert_node_op ⟨[[("a", Val.vint 1), ("id", Val.vstr "n")]], []⟩
        (some (Val.vstr "n")) [("b", Val.vint 2)] =
      .ok ⟨[[("a", Val.vint 1), ("id", Val.vstr "n"), ("b", Val.vint 2)]], []⟩ ∧
    dget (dinsert (dmerge [("a", Val.vint 1), ("id", Val.vstr "n")]
        [("b", Val.vint 2)]) "id" (Val.vstr "n")) "b" = some (Val.vint 2) :=
  ⟨(C2_upsert_merge_amended.2.1 ⟨[[("a", Val.vint 1), ("id", Val.vstr "n")]], []⟩
      (Val.vstr "n") [("b", Val.vint 2)] [("a", Val.vint 1), ("id", Val.vstr "n")]
      (by decide) (by decide) (by decide)).trans (by decide),
   ((C2_upsert_merge_amended.2.2.1 [("a", Val.vint 1), ("id", Val.vstr "n")]
      [("b", Val.vint 2)] (Val.vstr "n") (by decide)).1 "b" (by decide)).trans
      (by decide)⟩

/-- Counterexample to C2 as stated: `data = {"id": 9}` has the key
`"id"` present, yet after `upsert_node` on the existing record
`{"a":1, "id":"n"}` the stored `"id"` is still `"n"`, not `9` — `_set_id`
forces the identifier over the merged value, so not *every* key present
in `data` overwrites the old record's key. -/
theorem C2_counterexample :
    upsert_node_op ⟨[[("a", Val.vint 1), ("id", Val.vstr "n")]], []⟩
        (some (Val.vstr "n")) [("id", Val.vint 9)] =
      .ok ⟨[[("a", Val.vint 1), ("id", Val.vstr "n")]], []⟩ ∧
    dget (find_node ⟨[[("a", Val.vint 1), ("id", Val.vstr "n")]], []⟩
        (some (Val.vstr "n"))) "id" = some (Val.vstr "n") ∧
    ¬ (some (Val.vstr "n") = some (Val.vint 9)) := by
  decide

/-!
## C10 — in-place mutation of the caller's mapping
-/

lemma getD_set_self (l : Heap) (r : ℕ) (x : Attrs) (h : r < l.length) :
    (l.set r x).getD r [] = x := by
  rw [List.getD_eq_getElem _ _ (by simpa using h)]
  simp

/-- **C10** (corrected): `_set_id` mutates the caller's mapping in
place, so after `add_node` and after `add_node_embedding` with a
non-`None` identifier the caller's `data` itself carries
`"id" ↦ identifier`; `upsert_node` does the same only when no record
exists (the insert branch) — when a record exists the id is injected
into the freshly allocated `{**current_data, **data}` dict and the
caller's mapping is left untouched. -/
theorem C10_set_id_aliasing_amended :
    (∀ (heap : Heap) (db : DB) (i : Val) (r : ℕ), r < heap.length →
        (insert_node_h heap db (some i) r).1.getD r [] =
          dinsert (heap.getD r []) "id" i) ∧
    (∀ (heap : Heap) (maxRowid : ℕ) (i : Val) (r : ℕ), r < heap.length →
        (add_embedding_h heap maxRowid (some i) r).1.getD r [] =
          dinsert (heap.getD r []) "id" i) ∧
    (∀ (heap : Heap) (db : DB) (i : Val) (r : ℕ), r < heap.length →
        find_node db (some i) = [] →
        (upsert_node_h heap db (some i) r).1.getD r [] =
          dinsert (heap.getD r []) "id" i) ∧
    (∀ (heap : Heap) (db : DB) (i : Val) (r : ℕ), r < heap.length →
        ¬ find_node db (some i) = [] →
        (upsert_node_h heap db (some i) r).1.getD r [] = heap.getD r []) := by
  have hins : ∀ (heap : Heap) (db : DB) (i : Val) (r : ℕ), r < heap.length →
      (insert_node_h heap db (some i) r).1.getD r [] =
        dinsert (heap.getD r []) "id" i := by
    intro heap db i r h
    simp only [insert_node_h, set_id_h]
    exact getD_set_self heap r _ h
  refine ⟨hins, ?_, ?_, ?_⟩
  · intro heap maxRowid i r h
    simp only [add_embedding_h, set_id_h]
    exact getD_set_self heap r _ h
  · intro heap db i r h hcur
    simp only [upsert_node_h, hcur]
    simpa [upsert_node_h, hcur] using hins heap db i r h
  · intro heap db i r h hcur
    simp only [upsert_node_h, if_neg hcur, set_id_h]
    have hlen : r < ((heap ++ [dmerge (find_node db (some i)) (heap.getD r [])]).set
        heap.length (dinsert ((heap ++ [dmerge (find_node db (some i))
          (heap.getD r [])]).getD heap.length []) "id" i)).length := by
      simp
      omega
    rw [List.getD_eq_getElem _ _ hlen,
      List.getElem_set_ne (Nat.ne_of_gt h)]
    have hlen2 : r < (heap ++ [dmerge (find_node db (some i)) (heap.getD r [])]).length := by
      simp
      omega
    rw [← List.getD_eq_getElem _ ([] : Attrs) hlen2]
    exact List.getD_append _ _ _ _ h

/-- Witness for C10: `add_node` with identifier `"n"` mutates the
caller's `{"c": 7}` into `{"c": 7, "id": "n"}`, while `upsert_node` on
an existing record leaves the caller's `{"c": 7}` untouched. -/
theorem C10_witness :
    (insert_node_h [[("c", Val.vint 7)]] emptyDB (some (Val.vstr "n")) 0).1.getD 0 [] =
      [("c", Val.vint 7), ("id", Val.vstr "n")] ∧
    (upsert_node_h [[("c", Val.vint 7)]]
        ⟨[[("a", Val.vint 1), ("id", Val.vstr "n")]], []⟩
        (some (Val.vstr "n")) 0).1.getD 0 [] = [("c", Val.vint 7)] :=
  ⟨(C10_set_id_aliasing_amended.1 [[("c", Val.vint 7)]] emptyDB (Val.vstr "n") 0
      (by decide)).trans (by decide),
   (C10_set_id_aliasing_amended.2.2.2 [[("c", Val.vint 7)]]
      ⟨[[("a", Val.vint 1), ("id", Val.vstr "n")]], []⟩ (Val.vstr "n") 0
      (by decide) (by decide)).trans (by decide)⟩

/-- Counterexample to C10 as stated: `upsert_node("n", {"b": 2})`
against a store in which node `"n"` exists leaves the caller-supplied
mapping `{"b": 2}` without any `"id"` key — the claim's "data itself
contains the key id" fails for `upsert_node` on an existing record. -/
theorem C10_counterexample :
    (upsert_node_h [[("b", Val.vint 2)]]
        ⟨[[("a", Val.vint 1), ("id", Val.vstr "n")]], []⟩
        (some (Val.vstr "n")) 0).1.getD 0 [] = [("b", Val.vint 2)] ∧
    dget [("b", Val.vint 2)] "id" = none := by
  decide
